import Mathlib

/-
Verification of the core value-bridge of the ext-php-rs binding layer.

The development shallowly embeds the three source files
`src/types/array.rs`, `src/zend/try_catch.rs` and `src/types/class_object.rs`.
The Zend host runtime itself (the `zend_hash_*`, `zend_object_*` and
bailout-frame C entry points) is not part of the repository sources; those
parts are modelled from the specification (insertion-ordered int-or-string
keyed hashtable, setjmp frame runner, class-entry match) and each such
definition is marked `Modelled from the spec`.
-/

set_option maxHeartbeats 1000000

namespace Php

/-- Tagged union value of the host runtime (a `Zval`). Only the variants the
verified operations inspect are distinguished; the remaining host kinds are
collapsed into `other`. -/
inductive Zval where
  | null
  | bool (b : Bool)
  | long (i : Int)
  | str (s : String)
  | other (tag : Nat)
deriving DecidableEq, Repr

/-- Transcribes `Zval::is_long`: the value carries the long tag. -/
def Zval.is_long : Zval → Bool
  | .long _ => true
  | _ => false

/-- Transcribes `Zval::is_string`: the value carries the string tag. -/
def Zval.is_string : Zval → Bool
  | .str _ => true
  | _ => false

/-- Error kinds of the binding layer reachable from the embedded operations
(`Error::ZvalConversion`, `Error::InvalidCString`, `Error::IntegerOverflow`). -/
inductive PhpError where
  | zvalConversion
  | invalidCString
  | integerOverflow
deriving DecidableEq, Repr

/-- Key actually stored in the host hashtable: a signed machine integer or a
byte string. -/
inductive HKey where
  | hInt (i : Int)
  | hStr (s : String)
deriving DecidableEq, Repr

/-- One stored hashtable slot. -/
abbrev Entry := HKey × Zval

/-- Modelled from the spec: the host's insertion-ordered hashtable
(`zend_array` / `HashTable`), an insertion-ordered association list of
int-or-string keys to tagged values, together with the host's next-free
integer slot counter (`nNextFreeElement`). -/
structure HashTable where
  entries : List Entry
  nextFree : Int
deriving DecidableEq, Repr

/-- Modelled from the spec: `zend_array_count`, the number of elements. -/
def HashTable.len (ht : HashTable) : Nat := ht.entries.length

/-- Association-list lookup keeping insertion order (first match wins). -/
def findEntry : List Entry → HKey → Option Zval
  | [], _ => none
  | (k', v) :: rest, k => if k' = k then some v else findEntry rest k

/-- Membership of a key in the stored entries. -/
def containsKey (es : List Entry) (k : HKey) : Bool := (findEntry es k).isSome

/-- Replace the value stored under `k` in place, appending when absent. -/
def updateEntries : List Entry → HKey → Zval → List Entry
  | [], k, v => [(k, v)]
  | (k', v') :: rest, k, v =>
    if k' = k then (k, v) :: rest else (k', v') :: updateEntries rest k v

/-- Remove the entry stored under `k`, keeping the order of the others. -/
def removeEntries : List Entry → HKey → List Entry
  | [], _ => []
  | (k', v') :: rest, k =>
    if k' = k then rest else (k', v') :: removeEntries rest k

/-- Modelled from the spec: `zend_hash_index_find`. -/
def zend_hash_index_find (ht : HashTable) (n : Int) : Option Zval :=
  findEntry ht.entries (.hInt n)

/-- Modelled from the spec: `zend_hash_str_find`. -/
def zend_hash_str_find (ht : HashTable) (s : String) : Option Zval :=
  findEntry ht.entries (.hStr s)

/-- Modelled from the spec: `zend_hash_index_update` — replace in place when
the integer key is present, otherwise append; a fresh integer key at or above
the next-free counter advances that counter. -/
def zend_hash_index_update (ht : HashTable) (n : Int) (v : Zval) : HashTable :=
  if containsKey ht.entries (.hInt n) then
    ⟨updateEntries ht.entries (.hInt n) v, ht.nextFree⟩
  else
    ⟨ht.entries ++ [(.hInt n, v)], if ht.nextFree ≤ n then n + 1 else ht.nextFree⟩

/-- Modelled from the spec: `zend_hash_str_update` — replace in place when
the string key is present, otherwise append. -/
def zend_hash_str_update (ht : HashTable) (s : String) (v : Zval) : HashTable :=
  ⟨updateEntries ht.entries (.hStr s) v, ht.nextFree⟩

/-- Modelled from the spec: `zend_hash_next_index_insert` — append at the
next-free integer slot; fails (leaving the table unchanged) when that slot is
occupied. -/
def zend_hash_next_index_insert (ht : HashTable) (v : Zval) : HashTable :=
  if containsKey ht.entries (.hInt ht.nextFree) then ht
  else ⟨ht.entries ++ [(.hInt ht.nextFree, v)], ht.nextFree + 1⟩

/-- Modelled from the spec: `zend_hash_index_del` — returns the updated table
and the host status code (`0` success, `-1` when the key was absent). -/
def zend_hash_index_del (ht : HashTable) (n : Int) : HashTable × Int :=
  if containsKey ht.entries (.hInt n) then
    (⟨removeEntries ht.entries (.hInt n), ht.nextFree⟩, 0)
  else (ht, -1)

/-- Modelled from the spec: `zend_hash_str_del` — returns the updated table
and the host status code (`0` success, `-1` when the key was absent). -/
def zend_hash_str_del (ht : HashTable) (s : String) : HashTable × Int :=
  if containsKey ht.entries (.hStr s) then
    (⟨removeEntries ht.entries (.hStr s), ht.nextFree⟩, 0)
  else (ht, -1)

/-- Accumulated numeric value of a run of decimal digit characters. -/
def digitsVal (l : List Char) : Nat :=
  l.foldl (fun a c => a * 10 + (c.toNat - 48)) 0

/-- Transcribes the behaviour of Rust's `i64::from_str` (used by every
string-key code path of `array.rs`): an optional leading `+` or `-` sign
followed by one or more decimal digits, with the resulting value inside the
`i64` range; leading zeros are accepted; anything else (including whitespace)
is rejected. -/
def i64FromStr (s : String) : Option Int :=
  match s.data with
  | [] => none
  | c :: cs =>
    if c = '-' then
      if !cs.isEmpty && cs.all Char.isDigit
          && decide (digitsVal cs ≤ 9223372036854775808) then
        some (-(digitsVal cs : Int))
      else none
    else if c = '+' then
      if !cs.isEmpty && cs.all Char.isDigit
          && decide (digitsVal cs ≤ 9223372036854775807) then
        some ((digitsVal cs : Int))
      else none
    else
      if (c :: cs).all Char.isDigit
          && decide (digitsVal (c :: cs) ≤ 9223372036854775807) then
        some ((digitsVal (c :: cs) : Int))
      else none

/-- Transcribes the failure condition of `CString::new`: the string contains a
nul byte. -/
def hasNulByte (s : String) : Bool :=
  s.data.any (fun c => c == Char.ofNat 0)

/-- Transcribes `ArrayKey` of `array.rs`: a signed integer key, an owned
string key, or a borrowed string key. -/
inductive ArrayKey where
  | Long (i : Int)
  | String (s : String)
  | Str (s : String)
deriving DecidableEq, Repr

/-- Transcribes `ArrayKey::is_long`. -/
def ArrayKey.is_long : ArrayKey → Bool
  | .Long _ => true
  | .String _ => false
  | .Str _ => false

/-- Transcribes `ArrayKey::from_zval`: a long zval becomes `Long`, a string
zval becomes an owned `String` key, anything else is rejected. -/
def ArrayKey.from_zval : Zval → Option ArrayKey
  | .long i => some (.Long i)
  | .str s => some (.String s)
  | _ => none

/-- A string-kind key whose string contains a nul byte (the key-side failure
condition of `insert`). -/
def ArrayKey.hasNul : ArrayKey → Bool
  | .Long _ => false
  | .String s => hasNulByte s
  | .Str s => hasNulByte s

/-- Transcribes `ZendHashTable::new` (a fresh, empty host table; the host
initialises the next-free counter to `0`). -/
def ZendHashTable.new : HashTable := ⟨[], 0⟩

/-- Transcribes `ZendHashTable::get`: integer keys go straight to the index
lookup; string keys are first parsed with `i64::from_str` and only fall back
to the string lookup when parsing fails, with a nul byte in the key making
`CString::new` fail and the whole call return `none`. -/
def ZendHashTable.get (ht : HashTable) (key : ArrayKey) : Option Zval :=
  match key with
  | .Long index => zend_hash_index_find ht index
  | .String k =>
    match i64FromStr k with
    | some index => zend_hash_index_find ht index
    | none => if hasNulByte k then none else zend_hash_str_find ht k
  | .Str k =>
    match i64FromStr k with
    | some index => zend_hash_index_find ht index
    | none => if hasNulByte k then none else zend_hash_str_find ht k

/-- Transcribes `ZendHashTable::get_mut`; the lookup logic is byte-for-byte
that of `get` (the Rust difference is only `as_ref` versus `as_mut`). -/
def ZendHashTable.get_mut (ht : HashTable) (key : ArrayKey) : Option Zval :=
  match key with
  | .Long index => zend_hash_index_find ht index
  | .String k =>
    match i64FromStr k with
    | some index => zend_hash_index_find ht index
    | none => if hasNulByte k then none else zend_hash_str_find ht k
  | .Str k =>
    match i64FromStr k with
    | some index => zend_hash_index_find ht index
    | none => if hasNulByte k then none else zend_hash_str_find ht k

/-- Transcribes `ZendHashTable::get_index`. -/
def ZendHashTable.get_index (ht : HashTable) (n : Int) : Option Zval :=
  zend_hash_index_find ht n

/-- Transcribes `ZendHashTable::remove`: the same key dispatch as `get`; the
result pairs the table after the call with `some ()` when an entry was
removed and `none` otherwise (the host returns a negative status code when
the key was absent, and `CString::new` failure exits early with `none`). -/
def ZendHashTable.remove (ht : HashTable) (key : ArrayKey) : HashTable × Option Unit :=
  match key with
  | .Long index =>
    let r := zend_hash_index_del ht index
    (r.1, if r.2 < 0 then none else some ())
  | .String k =>
    match i64FromStr k with
    | some index =>
      let r := zend_hash_index_del ht index
      (r.1, if r.2 < 0 then none else some ())
    | none =>
      if hasNulByte k then (ht, none)
      else
        let r := zend_hash_str_del ht k
        (r.1, if r.2 < 0 then none else some ())
  | .Str k =>
    match i64FromStr k with
    | some index =>
      let r := zend_hash_index_del ht index
      (r.1, if r.2 < 0 then none else some ())
    | none =>
      if hasNulByte k then (ht, none)
      else
        let r := zend_hash_str_del ht k
        (r.1, if r.2 < 0 then none else some ())

/-- Transcribes `ZendHashTable::remove_index`. -/
def ZendHashTable.remove_index (ht : HashTable) (n : Int) : HashTable × Option Unit :=
  let r := zend_hash_index_del ht n
  (r.1, if r.2 < 0 then none else some ())

/-- Transcribes `ZendHashTable::insert`. The `val` argument is the outcome of
`val.into_zval(false)` (the conversion trait is outside the core, so its
result is passed in); a conversion error returns before the table is touched.
String keys follow the `i64::from_str` dispatch, and `CString::new` failure
(a nul byte) aborts with `Error::InvalidCString` leaving the table
unchanged. -/
def ZendHashTable.insert (ht : HashTable) (key : ArrayKey)
    (val : Except PhpError Zval) : HashTable × Except PhpError Unit :=
  match val with
  | .error e => (ht, .error e)
  | .ok v =>
    match key with
    | .Long index => (zend_hash_index_update ht index v, .ok ())
    | .String k =>
      match i64FromStr k with
      | some index => (zend_hash_index_update ht index v, .ok ())
      | none =>
        if hasNulByte k then (ht, .error .invalidCString)
        else (zend_hash_str_update ht k v, .ok ())
    | .Str k =>
      match i64FromStr k with
      | some index => (zend_hash_index_update ht index v, .ok ())
      | none =>
        if hasNulByte k then (ht, .error .invalidCString)
        else (zend_hash_str_update ht k v, .ok ())

/-- Transcribes `ZendHashTable::insert_at_index`: conversion error first
(table untouched), otherwise an index update. -/
def ZendHashTable.insert_at_index (ht : HashTable) (n : Int)
    (val : Except PhpError Zval) : HashTable × Except PhpError Unit :=
  match val with
  | .error e => (ht, .error e)
  | .ok v => (zend_hash_index_update ht n v, .ok ())

/-- Transcribes `ZendHashTable::push`: conversion error first (table
untouched), otherwise a next-index insert. -/
def ZendHashTable.push (ht : HashTable)
    (val : Except PhpError Zval) : HashTable × Except PhpError Unit :=
  match val with
  | .error e => (ht, .error e)
  | .ok v => (zend_hash_next_index_insert ht v, .ok ())

/-- The host's invalid iteration position (`HT_INVALID_IDX`). -/
def HT_INVALID_IDX : Nat := 4294967295

/-- Modelled from the spec: `zend_hash_get_current_key_type_ex` — key-kind
code at a cursor position: `1` string, `2` long, `3` end sentinel. -/
def zend_hash_get_current_key_type (ht : HashTable) (p : Nat) : Int :=
  match ht.entries[p]? with
  | some (.hStr _, _) => 1
  | some (.hInt _, _) => 2
  | none => 3

/-- Modelled from the spec: `zend_hash_get_current_key_zval_ex` — the key at
a cursor position materialised as a tagged value (null past the end). -/
def zend_hash_get_current_key_zval (ht : HashTable) (p : Nat) : Zval :=
  match ht.entries[p]? with
  | some (.hInt n, _) => .long n
  | some (.hStr s, _) => .str s
  | none => .null

/-- Modelled from the spec: `zend_hash_get_current_data_ex` — the value at a
cursor position, `none` standing for the null pointer past the end. -/
def zend_hash_get_current_data (ht : HashTable) (p : Nat) : Option Zval :=
  (ht.entries[p]?).map (fun e => e.2)

/-- Modelled from the spec: `zend_hash_move_forward_ex`. -/
def zend_hash_move_forward (p : Nat) : Nat := p + 1

/-- Modelled from the spec: `zend_hash_move_backwards_ex` — stepping before
the first slot parks the cursor at the invalid position. -/
def zend_hash_move_backwards (p : Nat) : Nat :=
  if p = 0 then HT_INVALID_IDX else p - 1

/-- Transcribes the `Iter` struct of `array.rs`: the table, the forward and
backward element counters, and the forward and backward host cursors. -/
structure Iter where
  ht : HashTable
  current_num : Int
  end_num : Int
  pos : Nat
  end_pos : Nat
deriving DecidableEq, Repr

/-- Transcribes `Iter::new`. -/
def Iter.new (ht : HashTable) : Iter :=
  { ht := ht
    current_num := 0
    end_num := (ht.len : Int)
    pos := 0
    end_pos := if 0 < ht.entries.length then ht.entries.length - 1 else 0 }

/-- Transcribes `Iter::next_zval`: guard on the element counters, read the
key type, the key and the data at the forward cursor, synthesise an integer
key when the host returned neither a long nor a string, then advance the
forward cursor. -/
def Iter.next_zval (it : Iter) : Option ((Zval × Zval) × Iter) :=
  if it.end_num ≤ it.current_num then none
  else
    let key_type := zend_hash_get_current_key_type it.ht it.pos
    if key_type = -1 ∨ key_type = 3 then none
    else
      let key := zend_hash_get_current_key_zval it.ht it.pos
      match zend_hash_get_current_data it.ht it.pos with
      | none => none
      | some value =>
        let key := if !key.is_long && !key.is_string then .long it.current_num else key
        some ((key, value),
          { it with pos := zend_hash_move_forward it.pos,
                    current_num := it.current_num + 1 })

/-- Transcribes `Iterator::next` for `Iter`: `next_zval` followed by the
`ArrayKey::from_zval` expectation (which cannot fail after the fix-up in
`next_zval`; the unreachable failure is mapped to `none` where the source
panics). -/
def Iter.next (it : Iter) : Option ((ArrayKey × Zval) × Iter) :=
  match it.next_zval with
  | none => none
  | some ((k, v), it') =>
    match ArrayKey.from_zval k with
    | some ak => some ((ak, v), it')
    | none => none

/-- Transcribes `DoubleEndedIterator::next_back` for `Iter`: guard on the
element counters, read the key type at the FORWARD cursor (`self.pos`, as the
source does), the key and the data at the backward cursor, substitute
`Long(end_num)` when the key zval is neither long nor string, then retreat
the backward cursor. The data pointer is dereferenced without a null check in
the source; the model substitutes a null value in that (unreachable) case. -/
def Iter.next_back (it : Iter) : Option ((ArrayKey × Zval) × Iter) :=
  if it.end_num ≤ it.current_num then none
  else
    let key_type := zend_hash_get_current_key_type it.ht it.pos
    if key_type = -1 then none
    else
      let key := zend_hash_get_current_key_zval it.ht it.end_pos
      let value := (zend_hash_get_current_data it.ht it.end_pos).getD .null
      let ak :=
        match ArrayKey.from_zval key with
        | some k => k
        | none => ArrayKey.Long it.end_num
      some ((ak, value),
        { it with end_pos := zend_hash_move_backwards it.end_pos,
                  end_num := it.end_num - 1 })

/-- Transcribes `Iterator::count` for `Iter`: the total table length, read
from the table rather than from the cursor state. -/
def Iter.count (it : Iter) : Nat := it.ht.len

/-- Transcribes `ExactSizeIterator::len` for `Iter`: the total table length,
read from the table rather than from the cursor state. -/
def Iter.len (it : Iter) : Nat := it.ht.len

/-- Fuel-indexed forward collection: repeatedly call `next`. -/
def collectFwdAux : Nat → Iter → List (ArrayKey × Zval)
  | 0, _ => []
  | fuel + 1, it =>
    match it.next with
    | none => []
    | some (kv, it') => kv :: collectFwdAux fuel it'

/-- Collecting `ht.iter()`: the hashtable length is enough fuel, as every
step advances `current_num` toward `end_num`. -/
def ZendHashTable.toListFwd (ht : HashTable) : List (ArrayKey × Zval) :=
  collectFwdAux ht.len (Iter.new ht)

/-- Fuel-indexed backward collection: repeatedly call `next_back`. -/
def collectBackAux : Nat → Iter → List (ArrayKey × Zval)
  | 0, _ => []
  | fuel + 1, it =>
    match it.next_back with
    | none => []
    | some (kv, it') => kv :: collectBackAux fuel it'

/-- Collecting `ht.iter().rev()`. -/
def ZendHashTable.toListRev (ht : HashTable) : List (ArrayKey × Zval) :=
  collectBackAux ht.len (Iter.new ht)

/-- Transcribes `ZendHashTable::has_numerical_keys`: no iterated key fails
`is_long`. -/
def ZendHashTable.has_numerical_keys (ht : HashTable) : Bool :=
  !((ZendHashTable.toListFwd ht).any (fun kv => !kv.1.is_long))

/-- Transcribes `ZendHashTable::has_sequential_keys`: no enumerated position
`i` carries a key other than `Long i`. -/
def ZendHashTable.has_sequential_keys (ht : HashTable) : Bool :=
  !((ZendHashTable.toListFwd ht).enum.any
      (fun p => decide (ArrayKey.Long (p.1 : Int) ≠ p.2.1)))

/-- Entry of the host table as the iterator surfaces it. -/
def entryToPair (e : Entry) : ArrayKey × Zval :=
  match e.1 with
  | .hInt n => (.Long n, e.2)
  | .hStr s => (.String s, e.2)

/-- Applies `next` repeatedly, keeping the final iterator state (partial
consumption of the iterator). -/
def stepFwd : Nat → Iter → Iter
  | 0, it => it
  | k + 1, it =>
    match it.next with
    | none => it
    | some (_, it') => stepFwd k it'

/-- Builds a table from the empty table using only (successful) pushes. -/
def pushOnly (vs : List Zval) : HashTable :=
  vs.foldl (fun h v => (ZendHashTable.push h (.ok v)).1) ZendHashTable.new

/-- Sequentially keyed entry list starting at key `k`. -/
def seqList : Int → List Zval → List Entry
  | _, [] => []
  | k, v :: vs => (.hInt k, v) :: seqList (k + 1) vs

/-- The key grammar the specification claims for the coercion: an optional
leading minus, then decimal digits with no leading zero unless the number is
exactly `0` (stated for comparison with the grammar the code implements). -/
def strictDecimalGrammar (s : String) : Bool :=
  match s.data with
  | [] => false
  | '-' :: ds =>
    !ds.isEmpty && ds.all Char.isDigit
      && (ds.head? ≠ some '0' || ds == ['0'])
  | ds =>
    !ds.isEmpty && ds.all Char.isDigit
      && (ds.head? ≠ some '0' || ds == ['0'])

/-- Declarative form of the grammar Rust's `i64::from_str` accepts: an
optional sign, one or more digits, value within the `i64` range. -/
def rustI64Grammar (s : String) : Prop :=
  (s.data ≠ [] ∧ (∀ c ∈ s.data, c.isDigit)
    ∧ digitsVal s.data ≤ 9223372036854775807) ∨
  (∃ ds, s.data = '+' :: ds ∧ ds ≠ [] ∧ (∀ c ∈ ds, c.isDigit)
    ∧ digitsVal ds ≤ 9223372036854775807) ∨
  (∃ ds, s.data = '-' :: ds ∧ ds ≠ [] ∧ (∀ c ∈ ds, c.isDigit)
    ∧ digitsVal ds ≤ 9223372036854775808)

/-- Modelled from the spec's words, for comparison only: a forward step that
reads the key type at the forward cursor but the key VALUE at the backward
cursor, as the claim describes the forward iterator. -/
def Iter.next_zval_claim (it : Iter) : Option ((Zval × Zval) × Iter) :=
  if it.end_num ≤ it.current_num then none
  else
    let key_type := zend_hash_get_current_key_type it.ht it.pos
    if key_type = -1 ∨ key_type = 3 then none
    else
      let key := zend_hash_get_current_key_zval it.ht it.end_pos
      match zend_hash_get_current_data it.ht it.pos with
      | none => none
      | some value =>
        let key := if !key.is_long && !key.is_string then .long it.current_num else key
        some ((key, value),
          { it with pos := zend_hash_move_forward it.pos,
                    current_num := it.current_num + 1 })

/-- Concrete two-element table (one string key, one integer key) used to
separate the two cursors observably. -/
def mixedHT : HashTable := ⟨[(.hStr "a", .long 1), (.hInt 5, .long 2)], 6⟩

/-- Outcome of running the user closure handed to `try_catch`: it returns,
panics, or triggers a host bailout (longjmp). -/
inductive FnOutcome (R : Type) where
  | ok (r : R)
  | panics (m : String)
  | bails

/-- Observable result of `try_catch`: either the function returns a
`Result`, or a native panic is resumed out of it. -/
inductive TryCatchOutcome (R : Type) where
  | ret (v : Except Unit R)
  | panicked (m : String)

/-- Transcribes `panic_wrapper`: the closure runs under `catch_unwind`, so a
return value or a panic payload is boxed into the result slot; a bailout
longjmps straight through the wrapper, which therefore never completes
(`none`). -/
def panic_wrapper {R : Type} (o : FnOutcome R) : Option (Except String R) :=
  match o with
  | .ok r => some (.ok r)
  | .panics m => some (.error m)
  | .bails => none

/-- Modelled from the spec: the host setjmp-frame runner
(`ext_php_rs_zend_try_catch`). When the wrapper completes, its boxed result
is stored in the slot and no bailout is reported; on a longjmp the bailout
flag is set and the slot keeps whatever it held (null, or a stale value
`stale` in nested scenarios). -/
def zend_try_catch {R : Type} (wrapped : Option (Except String R))
    (stale : Option (Except String R)) : Bool × Option (Except String R) :=
  match wrapped with
  | some r => (false, some r)
  | none => (true, stale)

/-- Transcribes `do_try_catch`: run the frame, return `CatchError` when the
slot is null or the bailout flag is set, unbox otherwise, and resume a caught
panic after leaving the frame. `CatchError` carries no data and is modelled
by `Unit`. -/
def do_try_catch {R : Type} (o : FnOutcome R)
    (stale : Option (Except String R)) : TryCatchOutcome R :=
  let r := zend_try_catch (panic_wrapper o) stale
  match r.2 with
  | none => .ret (.error ())
  | some res =>
    if r.1 then .ret (.error ())
    else
      match res with
      | .ok v => .ret (.ok v)
      | .error m => .panicked m

/-- Transcribes `try_catch` (the non-first variant; both variants share
`do_try_catch`). -/
def try_catch {R : Type} (o : FnOutcome R)
    (stale : Option (Except String R)) : TryCatchOutcome R :=
  do_try_catch o stale

/-- Registered class entry of the host (identified abstractly). -/
structure ClassEntry where
  id : Nat
deriving DecidableEq, Repr

/-- Registration data of a native type `T`: the byte offset of the `std`
header inside `ZendClassObject<T>` (the value `std_offset()` computes by
pointer arithmetic) and `T`'s registered class entry. -/
structure ClassMeta where
  off : Nat
  ce : ClassEntry
deriving DecidableEq, Repr

/-- Pointer to a host object header, together with the runtime class stored
in that header. -/
structure ZendObjectRef where
  addr : Int
  ce : ClassEntry
deriving DecidableEq, Repr

/-- Modelled from the spec: `zend_object::instance_of` — the header's runtime
class matches the queried class entry. -/
def instance_of (obj : ZendObjectRef) (ce : ClassEntry) : Bool :=
  obj.ce = ce

/-- Carrier allocated for a class object: its base address and its
registration data. `new(t)` allocates the carrier and initialises the header
at `base + off` with the registered class. -/
structure CarrierRef where
  base : Int
  meta : ClassMeta
deriving DecidableEq, Repr

/-- Transcribes `ZendClassObject::new` (layout-wise): a carrier whose header
lives at the std offset and carries the registered class. -/
def ZendClassObject.new (meta : ClassMeta) (base : Int) : CarrierRef :=
  ⟨base, meta⟩

/-- Address and class of the carrier's header (`&self.std`). -/
def CarrierRef.headerRef (c : CarrierRef) : ZendObjectRef :=
  ⟨c.base + (c.meta.off : Int), c.meta.ce⟩

/-- Transcribes `ZendClassObject::std_offset`. -/
def ZendClassObject.std_offset (meta : ClassMeta) : Nat := meta.off

/-- Transcribes `ZendClassObject::internal_from_zend_obj`: subtract the std
offset from the header pointer to recover the carrier base, then keep the
result only when the header's class matches the registered class. -/
def ZendClassObject.internal_from_zend_obj (meta : ClassMeta)
    (std : ZendObjectRef) : Option Int :=
  let p := std.addr - (ZendClassObject.std_offset meta : Int)
  if instance_of std meta.ce then some p else none

/-! Helper lemmas about the spec-modelled host hashtable. -/

theorem findEntry_update_self (es : List Entry) (k : HKey) (v : Zval) :
    findEntry (updateEntries es k v) k = some v := by
  induction es with
  | nil => simp [updateEntries, findEntry]
  | cons e rest ih =>
    obtain ⟨k', v'⟩ := e
    by_cases hk : k' = k
    · subst hk
      simp [updateEntries, findEntry]
    · simp [updateEntries, findEntry, hk, ih]

theorem findEntry_append (es l : List Entry) (k : HKey) :
    findEntry (es ++ l) k =
      (match findEntry es k with
       | some v => some v
       | none => findEntry l k) := by
  induction es with
  | nil => simp [findEntry]
  | cons e rest ih =>
    obtain ⟨k', v'⟩ := e
    by_cases hk : k' = k
    · subst hk
      simp [findEntry]
    · simp [findEntry, hk, ih]

theorem zend_find_index_update (ht : HashTable) (n : Int) (v : Zval) :
    zend_hash_index_find (zend_hash_index_update ht n v) n = some v := by
  unfold zend_hash_index_update
  by_cases hc : containsKey ht.entries (.hInt n)
  · simp [hc, zend_hash_index_find, findEntry_update_self]
  · have hn : findEntry ht.entries (.hInt n) = none := by
      unfold containsKey at hc
      cases hfe : findEntry ht.entries (.hInt n) with
      | none => rfl
      | some w => rw [hfe] at hc; simp at hc
    simp [hc, zend_hash_index_find, findEntry_append, hn, findEntry]

theorem i64FromStr_eq_none_of_hasNulByte (s : String) (h : hasNulByte s = true) :
    i64FromStr s = none := by
  unfold hasNulByte at h
  rw [List.any_eq_true] at h
  obtain ⟨c0, hmem, hbeq⟩ := h
  have hc0 : c0 = Char.ofNat 0 := eq_of_beq hbeq
  subst hc0
  have hnd : (Char.ofNat 0).isDigit = false := by decide
  unfold i64FromStr
  cases hd : s.data with
  | nil => exact absurd (hd ▸ hmem) (by simp)
  | cons c cs =>
    rw [hd] at hmem
    by_cases hcm : c = '-'
    · subst hcm
      have h0cs : Char.ofNat 0 ∈ cs := by
        rcases List.mem_cons.mp hmem with h | h
        · exact absurd h (by decide)
        · exact h
      have hall : cs.all Char.isDigit = false := by
        cases hA : cs.all Char.isDigit with
        | false => rfl
        | true =>
          have := List.all_eq_true.mp hA _ h0cs
          rw [hnd] at this; cases this
      simp [hall]
    · by_cases hcp : c = '+'
      · subst hcp
        have h0cs : Char.ofNat 0 ∈ cs := by
          rcases List.mem_cons.mp hmem with h | h
          · exact absurd h (by decide)
          · exact h
        have hall : cs.all Char.isDigit = false := by
          cases hA : cs.all Char.isDigit with
          | false => rfl
          | true =>
            have := List.all_eq_true.mp hA _ h0cs
            rw [hnd] at this; cases this
        simp [hall, hcm]
      · have hall : (c :: cs).all Char.isDigit = false := by
          cases hA : (c :: cs).all Char.isDigit with
          | false => rfl
          | true =>
            have := List.all_eq_true.mp hA _ hmem
            rw [hnd] at this; cases this
        simp [hall, hcm, hcp]

/-! Claim theorems. -/

/-- C2. `try_catch` returns `Ok(r)` unchanged when the closure returns `r`,
returns `Err(CatchError)` exactly when a bailout occurs during the closure,
and resumes a native panic out of the frame instead of turning it into a
`CatchError`; the slot's stale content on the bailout path is irrelevant. -/
theorem claim2_try_catch (R : Type) (stale : Option (Except String R))
    (r : R) (m : String) :
    try_catch (FnOutcome.ok r) stale = .ret (.ok r)
    ∧ try_catch (FnOutcome.bails : FnOutcome R) stale = .ret (.error ())
    ∧ try_catch (FnOutcome.panics m : FnOutcome R) stale = .panicked m
    ∧ ∀ o : FnOutcome R,
        try_catch o stale = .ret (.error ()) ↔ o = FnOutcome.bails := by
  refine ⟨rfl, ?_, rfl, ?_⟩
  · cases stale <;> rfl
  · intro o
    cases o <;> cases stale <;>
      simp [try_catch, do_try_catch, zend_try_catch, panic_wrapper]

/-- C3. After a successful `insert(s, v)` with a string `s` that parses as
the integer `n`, `get_index(n)` returns the inserted value and `get(s)`
agrees with `get_index(n)`. -/
theorem claim3_insert_numeric_string (ht : HashTable) (s : String) (n : Int)
    (v : Zval) (h : i64FromStr s = some n) :
    (ZendHashTable.insert ht (.Str s) (.ok v)).2 = .ok ()
    ∧ ZendHashTable.get_index (ZendHashTable.insert ht (.Str s) (.ok v)).1 n
        = some v
    ∧ ZendHashTable.get (ZendHashTable.insert ht (.Str s) (.ok v)).1 (.Str s)
        = ZendHashTable.get_index
            (ZendHashTable.insert ht (.Str s) (.ok v)).1 n := by
  refine ⟨?_, ?_, ?_⟩
  · simp [ZendHashTable.insert, h]
  · simp [ZendHashTable.insert, h, ZendHashTable.get_index,
      zend_find_index_update]
  · simp [ZendHashTable.insert, h, ZendHashTable.get, ZendHashTable.get_index]

/-- Witness for C3 at the concrete input `s = "5"`, `v = long 7` on the
empty table. -/
theorem claim3_witness :
    i64FromStr "5" = some 5
    ∧ ZendHashTable.get_index
        (ZendHashTable.insert ZendHashTable.new (.Str "5")
          (.ok (.long 7))).1 5 = some (.long 7) :=
  ⟨by decide,
   (claim3_insert_numeric_string ZendHashTable.new "5" 5 (.long 7)
      (by decide)).2.1⟩

/-- C5. The up-cast subtracts `std_offset` from the header pointer: the
carrier built by `new` is recovered exactly from its own header, and an
arbitrary header is accepted exactly when its runtime class matches the
registered class, yielding the pointer `header - std_offset`. -/
theorem claim5_class_object_upcast (meta : ClassMeta) (base : Int)
    (h : ZendObjectRef) :
    ZendClassObject.internal_from_zend_obj meta
        (CarrierRef.headerRef (ZendClassObject.new meta base)) = some base
    ∧ ZendClassObject.internal_from_zend_obj meta h
        = (if h.ce = meta.ce then some (h.addr - (meta.off : Int)) else none)
    ∧ ((ZendClassObject.internal_from_zend_obj meta h).isSome
        ↔ h.ce = meta.ce) := by
  refine ⟨?_, ?_, ?_⟩
  · simp [ZendClassObject.internal_from_zend_obj, ZendClassObject.new,
      CarrierRef.headerRef, instance_of, ZendClassObject.std_offset]
  · by_cases hc : h.ce = meta.ce <;>
      simp [ZendClassObject.internal_from_zend_obj, instance_of,
        ZendClassObject.std_offset, hc]
  · by_cases hc : h.ce = meta.ce <;>
      simp [ZendClassObject.internal_from_zend_obj, instance_of,
        ZendClassObject.std_offset, hc]

/-- C9. A string key containing a nul byte makes `get`, `get_mut` and
`remove` return `None` silently with the table untouched, while `insert`
with the same key reports `Error::InvalidCString` (also leaving the table
untouched). -/
theorem claim9_nul_byte_keys (ht : HashTable) (s : String) (v : Zval)
    (h : hasNulByte s = true) :
    ZendHashTable.get ht (.Str s) = none
    ∧ ZendHashTable.get ht (.String s) = none
    ∧ ZendHashTable.get_mut ht (.Str s) = none
    ∧ ZendHashTable.get_mut ht (.String s) = none
    ∧ ZendHashTable.remove ht (.Str s) = (ht, none)
    ∧ ZendHashTable.remove ht (.String s) = (ht, none)
    ∧ ZendHashTable.insert ht (.Str s) (.ok v) = (ht, .error .invalidCString)
    ∧ ZendHashTable.insert ht (.String s) (.ok v)
        = (ht, .error .invalidCString) := by
  have hp := i64FromStr_eq_none_of_hasNulByte s h
  refine ⟨?_, ?_, ?_, ?_, ?_, ?_, ?_, ?_⟩ <;>
    simp [ZendHashTable.get, ZendHashTable.get_mut, ZendHashTable.remove,
      ZendHashTable.insert, hp, h]

/-- Witness for C9 at the concrete key `"a\x00b"` on the empty table. -/
theorem claim9_witness :
    hasNulByte "a\x00b" = true
    ∧ ZendHashTable.get ZendHashTable.new (.Str "a\x00b") = none
    ∧ ZendHashTable.insert ZendHashTable.new (.Str "a\x00b") (.ok .null)
        = (ZendHashTable.new, .error .invalidCString) := by
  have h : hasNulByte "a\x00b" = true := by decide
  have hc := claim9_nul_byte_keys ZendHashTable.new "a\x00b" .null h
  exact ⟨h, hc.1, hc.2.2.2.2.2.2.1⟩

theorem Iter.next_zval_preserves_ht {it : Iter} {p : (Zval × Zval) × Iter}
    (h : it.next_zval = some p) : p.2.ht = it.ht := by
  simp only [Iter.next_zval] at h
  repeat' split at h
  all_goals first
    | exact Option.noConfusion h
    | (injection h with h'; subst h'; rfl)

theorem Iter.next_preserves_ht {it : Iter} {p : (ArrayKey × Zval) × Iter}
    (h : it.next = some p) : p.2.ht = it.ht := by
  simp only [Iter.next] at h
  split at h
  · exact Option.noConfusion h
  · rename_i k v it' hq
    split at h
    · injection h with h'
      subst h'
      exact Iter.next_zval_preserves_ht hq
    · exact Option.noConfusion h

theorem stepFwd_preserves_ht (k : Nat) (it : Iter) :
    (stepFwd k it).ht = it.ht := by
  induction k generalizing it with
  | zero => rfl
  | succ n ih =>
    cases h : it.next with
    | none => simp [stepFwd, h, ih]
    | some p => simp [stepFwd, h, ih, Iter.next_preserves_ht h]

/-- C10. After any number of forward steps, `Iter::count` and
`ExactSizeIterator::len` still report the total number of elements of the
underlying table, not the remaining count. -/
theorem claim10_count_len_total (ht : HashTable) (k : Nat) :
    Iter.count (stepFwd k (Iter.new ht)) = HashTable.len ht
    ∧ Iter.len (stepFwd k (Iter.new ht)) = HashTable.len ht := by
  constructor <;>
    simp [Iter.count, Iter.len, stepFwd_preserves_ht, Iter.new]

theorem hasNulByte_eq_false_of_parse {s : String} {n : Int}
    (h : i64FromStr s = some n) : hasNulByte s = false := by
  cases hb : hasNulByte s with
  | false => rfl
  | true => rw [i64FromStr_eq_none_of_hasNulByte s hb] at h; cases h

/-- C4. `insert` succeeds exactly when the value converted and the (string)
key holds no nul byte; `insert_at_index` and `push` succeed exactly when the
value converted; and a conversion error leaves the table unchanged in all
three. -/
theorem claim4_insert_error_modes (ht : HashTable) (k : ArrayKey)
    (vres : Except PhpError Zval) (i : Int) :
    ((ZendHashTable.insert ht k vres).2 = .ok ()
      ↔ (∃ v, vres = .ok v) ∧ ArrayKey.hasNul k = false)
    ∧ ((ZendHashTable.insert_at_index ht i vres).2 = .ok ()
      ↔ ∃ v, vres = .ok v)
    ∧ ((ZendHashTable.push ht vres).2 = .ok () ↔ ∃ v, vres = .ok v)
    ∧ (∀ e, vres = .error e →
        (ZendHashTable.insert ht k vres).1 = ht
        ∧ (ZendHashTable.insert_at_index ht i vres).1 = ht
        ∧ (ZendHashTable.push ht vres).1 = ht) := by
  refine ⟨?_, ?_, ?_, ?_⟩
  · cases vres with
    | error e => simp [ZendHashTable.insert]
    | ok v =>
      cases k with
      | Long m => simp [ZendHashTable.insert, ArrayKey.hasNul]
      | String s =>
        cases hp : i64FromStr s with
        | some m =>
          simp [ZendHashTable.insert, hp, ArrayKey.hasNul,
            hasNulByte_eq_false_of_parse hp]
        | none =>
          cases hb : hasNulByte s <;>
            simp [ZendHashTable.insert, hp, ArrayKey.hasNul, hb]
      | Str s =>
        cases hp : i64FromStr s with
        | some m =>
          simp [ZendHashTable.insert, hp, ArrayKey.hasNul,
            hasNulByte_eq_false_of_parse hp]
        | none =>
          cases hb : hasNulByte s <;>
            simp [ZendHashTable.insert, hp, ArrayKey.hasNul, hb]
  · cases vres <;> simp [ZendHashTable.insert_at_index]
  · cases vres <;> simp [ZendHashTable.push]
  · intro e he
    subst he
    exact ⟨by simp [ZendHashTable.insert],
      by simp [ZendHashTable.insert_at_index], by simp [ZendHashTable.push]⟩

/-- Witness for C4: a conversion error on the empty table leaves it
unchanged for `insert`, `insert_at_index` and `push`. -/
theorem claim4_witness :
    (ZendHashTable.insert ZendHashTable.new (.Str "k")
        (.error .zvalConversion)).1 = ZendHashTable.new
    ∧ (ZendHashTable.insert_at_index ZendHashTable.new 0
        (.error .zvalConversion)).1 = ZendHashTable.new
    ∧ (ZendHashTable.push ZendHashTable.new
        (.error .zvalConversion)).1 = ZendHashTable.new :=
  (claim4_insert_error_modes ZendHashTable.new (.Str "k")
    (.error .zvalConversion) 0).2.2.2 .zvalConversion rfl

/-! Evaluation of single iterator steps on in-range cursor states. -/

theorem Iter.next_eval (es : List Entry) (nf : Int) (c ep : Nat) (e : Entry)
    (hc : es[c]? = some e) (hlt : c < es.length) :
    Iter.next ⟨⟨es, nf⟩, (c : Int), (es.length : Int), c, ep⟩
      = some ((entryToPair e,
          ⟨⟨es, nf⟩, (c : Int) + 1, (es.length : Int), c + 1, ep⟩)) := by
  have hng : ¬ ((es.length : Int) ≤ (c : Int)) := by
    simpa using hlt
  obtain ⟨k0, v0⟩ := e
  cases k0 with
  | hInt n =>
    simp [Iter.next, Iter.next_zval, zend_hash_get_current_key_type,
      zend_hash_get_current_key_zval, zend_hash_get_current_data, hc, hng,
      zend_hash_move_forward, entryToPair, ArrayKey.from_zval,
      Zval.is_long, Zval.is_string]
  | hStr t =>
    simp [Iter.next, Iter.next_zval, zend_hash_get_current_key_type,
      zend_hash_get_current_key_zval, zend_hash_get_current_data, hc, hng,
      zend_hash_move_forward, entryToPair, ArrayKey.from_zval,
      Zval.is_long, Zval.is_string]

theorem Iter.next_back_eval (es : List Entry) (nf : Int) (cN eN : Int)
    (p ep : Nat) (e0 el : Entry) (hg : ¬ (eN ≤ cN))
    (h0 : es[p]? = some e0) (he : es[ep]? = some el) :
    Iter.next_back ⟨⟨es, nf⟩, cN, eN, p, ep⟩
      = some ((entryToPair el,
          ⟨⟨es, nf⟩, cN, eN - 1, p, zend_hash_move_backwards ep⟩)) := by
  obtain ⟨k0, v0⟩ := e0
  obtain ⟨kl, vl⟩ := el
  cases k0 <;> cases kl <;>
    simp [Iter.next_back, zend_hash_get_current_key_type,
      zend_hash_get_current_key_zval, zend_hash_get_current_data, h0, he, hg,
      entryToPair, ArrayKey.from_zval]

theorem collectFwdAux_eq (es : List Entry) (nf : Int) :
    ∀ (fuel c ep : Nat), es.length - c ≤ fuel →
      collectFwdAux fuel ⟨⟨es, nf⟩, (c : Int), (es.length : Int), c, ep⟩
        = (es.drop c).map entryToPair := by
  intro fuel
  induction fuel with
  | zero =>
    intro c ep hf
    have hle : es.length ≤ c := by omega
    rw [List.drop_eq_nil_of_le hle]
    rfl
  | succ m ih =>
    intro c ep hf
    by_cases hlt : c < es.length
    · have hc : es[c]? = some es[c] := List.getElem?_eq_getElem hlt
      rw [List.drop_eq_getElem_cons hlt]
      have hnext := Iter.next_eval es nf c ep es[c] hc hlt
      have hcast : ((c : Int) + 1) = ((c + 1 : Nat) : Int) := by push_cast; ring
      rw [collectFwdAux, hnext, hcast]
      simp only [List.map_cons]
      rw [ih (c + 1) ep (by omega)]
    · have hle : es.length ≤ c := by omega
      have hng : (es.length : Int) ≤ (c : Int) := by simpa using hle
      rw [List.drop_eq_nil_of_le hle]
      rw [collectFwdAux]
      have : Iter.next ⟨⟨es, nf⟩, (c : Int), (es.length : Int), c, ep⟩ = none := by
        simp [Iter.next, Iter.next_zval, hng]
      rw [this]
      simp

theorem toListFwd_eq (ht : HashTable) :
    ZendHashTable.toListFwd ht = ht.entries.map entryToPair := by
  have h := collectFwdAux_eq ht.entries ht.nextFree ht.entries.length 0
    (if 0 < ht.entries.length then ht.entries.length - 1 else 0) (by omega)
  simpa [ZendHashTable.toListFwd, Iter.new, HashTable.len] using h

theorem collectBackAux_eq (es : List Entry) (nf : Int) :
    ∀ (fuel eN ep : Nat), eN ≤ es.length → eN ≤ fuel →
      (eN = 0 ∨ ep = eN - 1) →
      collectBackAux fuel ⟨⟨es, nf⟩, 0, (eN : Int), 0, ep⟩
        = ((es.take eN).map entryToPair).reverse := by
  intro fuel
  induction fuel with
  | zero =>
    intro eN ep hlen hf hep
    have : eN = 0 := by omega
    subst this
    rfl
  | succ m ih =>
    intro eN ep hlen hf hep
    cases eN with
    | zero =>
      rw [collectBackAux]
      have : Iter.next_back ⟨⟨es, nf⟩, 0, ((0 : Nat) : Int), 0, ep⟩ = none := by
        simp [Iter.next_back]
      rw [this]
      simp
    | succ n =>
      have hepn : ep = n := by omega
      subst hepn
      have h0lt : 0 < es.length := by omega
      have hnlt : ep < es.length := by omega
      have h0 : es[0]? = some es[0] := List.getElem?_eq_getElem h0lt
      have hn : es[ep]? = some es[ep] := List.getElem?_eq_getElem hnlt
      have hg : ¬ (((ep + 1 : Nat) : Int) ≤ (0 : Int)) := by
        push_cast
        omega
      have hstep := Iter.next_back_eval es nf 0 ((ep + 1 : Nat) : Int) 0 ep
        es[0] es[ep] hg h0 hn
      have hcast : ((ep + 1 : Nat) : Int) - 1 = ((ep : Nat) : Int) := by
        push_cast
        ring
      rw [collectBackAux, hstep, hcast]
      have hrec :
          collectBackAux m ⟨⟨es, nf⟩, 0, ((ep : Nat) : Int), 0,
              zend_hash_move_backwards ep⟩
            = ((es.take ep).map entryToPair).reverse := by
        apply ih ep (zend_hash_move_backwards ep) (by omega) (by omega)
        cases hcep : ep with
        | zero => exact Or.inl rfl
        | succ j =>
          right
          simp [zend_hash_move_backwards]
      simp only [List.take_succ, hn]
      simp only [Option.toList_some, List.map_append, List.reverse_append,
        List.map_cons, List.map_nil, List.reverse_cons, List.reverse_nil,
        List.nil_append, List.cons_append]
      rw [hrec]

theorem toListRev_eq (ht : HashTable) :
    ZendHashTable.toListRev ht = (ht.entries.map entryToPair).reverse := by
  have h := collectBackAux_eq ht.entries ht.nextFree ht.entries.length
    ht.entries.length
    (if 0 < ht.entries.length then ht.entries.length - 1 else 0)
    (le_refl _) (le_refl _) ?_
  · have ht' : (ht.entries.take ht.entries.length) = ht.entries :=
      List.take_length ht.entries
    rw [ht'] at h
    simpa [ZendHashTable.toListRev, Iter.new, HashTable.len] using h
  · cases hn : ht.entries.length with
    | zero => exact Or.inl rfl
    | succ j =>
      right
      simp [hn]

/-- C6. `iter().count()` is the table's length, and collecting the reversed
iterator yields exactly the reverse of collecting the forward iterator. -/
theorem claim6_iteration_laws (ht : HashTable) :
    Iter.count (Iter.new ht) = HashTable.len ht
    ∧ ZendHashTable.toListRev ht = (ZendHashTable.toListFwd ht).reverse := by
  exact ⟨rfl, by rw [toListRev_eq, toListFwd_eq]⟩

/-! Push-only tables carry exactly the keys `0, 1, ..., n-1` in order. -/

theorem seqList_not_contains (vs : List Zval) :
    ∀ k : Int, containsKey (seqList k vs) (.hInt (k + vs.length)) = false := by
  induction vs with
  | nil => intro k; rfl
  | cons v vs ih =>
    intro k
    have hne : (HKey.hInt k) ≠ (.hInt (k + ((vs.length : Nat) + 1 : Nat))) := by
      simp only [ne_eq, HKey.hInt.injEq]
      omega
    have hsh : (k + ((v :: vs).length : Int)) = ((k + 1) + (vs.length : Int)) := by
      push_cast [List.length_cons]
      ring
    rw [hsh]
    have := ih (k + 1)
    simp only [seqList, containsKey, findEntry] at *
    rw [if_neg ?_]
    · exact this
    · simp only [HKey.hInt.injEq]
      omega

theorem seqList_append (v : Zval) :
    ∀ (ws : List Zval) (k : Int),
      seqList k (ws ++ [v]) = seqList k ws ++ [(.hInt (k + ws.length), v)] := by
  intro ws
  induction ws with
  | nil => intro k; simp [seqList]
  | cons w ws ih =>
    intro k
    rw [List.cons_append]
    simp only [seqList]
    rw [ih (k + 1), List.length_cons]
    have hc : ((k + 1) + (ws.length : Int)) = (k + ((ws.length + 1 : Nat) : Int)) := by
      push_cast
      ring
    rw [hc, List.cons_append]

theorem pushOnly_general :
    ∀ (vs ws : List Zval),
      List.foldl (fun h v => (ZendHashTable.push h (.ok v)).1)
          ⟨seqList 0 ws, (ws.length : Int)⟩ vs
        = ⟨seqList 0 (ws ++ vs), ((ws ++ vs).length : Int)⟩ := by
  intro vs
  induction vs with
  | nil => intro ws; simp
  | cons v vs ih =>
    intro ws
    have hnc : containsKey (seqList 0 ws) (.hInt (ws.length : Int)) = false := by
      have := seqList_not_contains ws 0
      simpa using this
    have hstep :
        (ZendHashTable.push ⟨seqList 0 ws, (ws.length : Int)⟩ (.ok v)).1
          = ⟨seqList 0 (ws ++ [v]), ((ws ++ [v]).length : Int)⟩ := by
      simp only [ZendHashTable.push, zend_hash_next_index_insert, hnc,
        Bool.false_eq_true, if_false]
      rw [seqList_append v ws 0]
      simp
    rw [List.foldl_cons, hstep, ih (ws ++ [v])]
    simp

theorem pushOnly_eq (vs : List Zval) :
    pushOnly vs = ⟨seqList 0 vs, (vs.length : Int)⟩ := by
  have h := pushOnly_general vs []
  simpa [pushOnly, ZendHashTable.new, seqList] using h

theorem seqList_no_nonlong (vs : List Zval) :
    ∀ k : Int,
      ((seqList k vs).map entryToPair).any (fun kv => !kv.1.is_long) = false := by
  induction vs with
  | nil => intro k; rfl
  | cons v vs ih =>
    intro k
    simp only [seqList, List.map_cons, List.any_cons]
    rw [ih (k + 1)]
    simp [entryToPair, ArrayKey.is_long]

theorem seqList_enumFrom_no_mismatch (vs : List Zval) :
    ∀ j : Nat,
      (List.enumFrom j ((seqList (j : Int) vs).map entryToPair)).any
        (fun p => decide (ArrayKey.Long (p.1 : Int) ≠ p.2.1)) = false := by
  induction vs with
  | nil => intro j; rfl
  | cons v vs ih =>
    intro j
    have hcast : ((j : Int) + 1) = ((j + 1 : Nat) : Int) := by push_cast; ring
    simp only [seqList, List.map_cons, List.enumFrom, List.any_cons,
      entryToPair, hcast, ih (j + 1)]
    simp

/-- C7. A table built from the empty table by (always successful) pushes has
integer keys only, in sequential order `0, 1, ..., n-1`; pushing an already
converted value always succeeds. -/
theorem claim7_push_only_sequential (vs : List Zval) :
    ZendHashTable.has_sequential_keys (pushOnly vs) = true
    ∧ ZendHashTable.has_numerical_keys (pushOnly vs) = true
    ∧ ∀ (ht : HashTable) (v : Zval),
        (ZendHashTable.push ht (.ok v)).2 = .ok () := by
  refine ⟨?_, ?_, ?_⟩
  · rw [ZendHashTable.has_sequential_keys, pushOnly_eq, toListFwd_eq]
    have h := seqList_enumFrom_no_mismatch vs 0
    simp only [Nat.cast_zero] at h
    have henum :
        List.enum ((seqList (0 : Int) vs).map entryToPair)
          = List.enumFrom 0 ((seqList (0 : Int) vs).map entryToPair) := rfl
    rw [henum, h]
    rfl
  · rw [ZendHashTable.has_numerical_keys, pushOnly_eq, toListFwd_eq]
    have h := seqList_no_nonlong vs 0
    simp [h]
  · intro ht v
    simp [ZendHashTable.push]

/-! The key-coercion grammar of the code is Rust's `i64::from_str` grammar. -/

theorem isSome_ite_some_none {α : Type} (P : Prop) [Decidable P] (x : α) :
    ((if P then some x else none).isSome = true) ↔ P := by
  by_cases h : P <;> simp [h]

theorem i64FromStr_isSome_iff (s : String) :
    (i64FromStr s).isSome ↔ rustI64Grammar s := by
  unfold i64FromStr rustI64Grammar
  cases hd : s.data with
  | nil => simp
  | cons c cs =>
    have hmd : ('-' : Char).isDigit = false := by decide
    have hpd : ('+' : Char).isDigit = false := by decide
    by_cases hm : c = '-'
    · subst hm
      simp [isSome_ite_some_none, List.all_eq_true, hmd, and_assoc,
        List.isEmpty_iff]
    · by_cases hp : c = '+'
      · subst hp
        simp [isSome_ite_some_none, List.all_eq_true, hpd, and_assoc,
          List.isEmpty_iff, hm]
      · simp [isSome_ite_some_none, List.all_eq_true, and_assoc,
          List.isEmpty_iff, hm, hp]

/-- C1 (amended). On every operation taking a string key (`get`, `get_mut`,
`remove`, `insert`), the key is treated as the integer-keyed entry exactly
when it parses under Rust's `i64::from_str` grammar — an optional leading
`+` or `-` sign followed by one or more decimal digits within the `i64`
range, leading zeros included — and is otherwise used as a string key (with
a nul byte short-circuiting the string path); the owned and borrowed string
key variants behave identically. -/
theorem claim1_key_coercion (ht : HashTable) (s : String) (v : Zval) :
    ((i64FromStr s).isSome ↔ rustI64Grammar s)
    ∧ (∀ n, i64FromStr s = some n →
        ZendHashTable.get ht (.Str s) = zend_hash_index_find ht n
        ∧ ZendHashTable.get_mut ht (.Str s) = zend_hash_index_find ht n
        ∧ ZendHashTable.remove ht (.Str s)
            = ((zend_hash_index_del ht n).1,
               if (zend_hash_index_del ht n).2 < 0 then none else some ())
        ∧ ZendHashTable.insert ht (.Str s) (.ok v)
            = (zend_hash_index_update ht n v, .ok ()))
    ∧ (i64FromStr s = none →
        ZendHashTable.get ht (.Str s)
            = (if hasNulByte s then none else zend_hash_str_find ht s)
        ∧ ZendHashTable.get_mut ht (.Str s)
            = (if hasNulByte s then none else zend_hash_str_find ht s)
        ∧ ZendHashTable.remove ht (.Str s)
            = (if hasNulByte s then (ht, none)
               else ((zend_hash_str_del ht s).1,
                     if (zend_hash_str_del ht s).2 < 0 then none else some ()))
        ∧ ZendHashTable.insert ht (.Str s) (.ok v)
            = (if hasNulByte s then (ht, .error .invalidCString)
               else (zend_hash_str_update ht s v, .ok ())))
    ∧ (ZendHashTable.get ht (.String s) = ZendHashTable.get ht (.Str s)
       ∧ ZendHashTable.get_mut ht (.String s) = ZendHashTable.get_mut ht (.Str s)
       ∧ ZendHashTable.remove ht (.String s) = ZendHashTable.remove ht (.Str s)
       ∧ ZendHashTable.insert ht (.String s) (.ok v)
           = ZendHashTable.insert ht (.Str s) (.ok v)) := by
  refine ⟨i64FromStr_isSome_iff s, ?_, ?_, ?_⟩
  · intro n hn
    refine ⟨?_, ?_, ?_, ?_⟩ <;>
      simp [ZendHashTable.get, ZendHashTable.get_mut, ZendHashTable.remove,
        ZendHashTable.insert, hn]
  · intro hn
    refine ⟨?_, ?_, ?_, ?_⟩ <;>
      cases hb : hasNulByte s <;>
        simp [ZendHashTable.get, ZendHashTable.get_mut, ZendHashTable.remove,
          ZendHashTable.insert, hn, hb]
  · refine ⟨rfl, rfl, rfl, rfl⟩

/-- Counterexample to C1 as stated: `"007"` has leading zeros, so it lies
outside the claimed strict grammar, yet `get` coerces it to the integer key
`7` (finding the integer-keyed entry and never consulting the string keys). -/
theorem claim1_counterexample :
    strictDecimalGrammar "007" = false
    ∧ i64FromStr "007" = some 7
    ∧ ZendHashTable.get ⟨[(.hInt 7, .long 42)], 8⟩ (.Str "007")
        = some (.long 42)
    ∧ zend_hash_str_find ⟨[(.hInt 7, .long 42)], 8⟩ "007" = none := by
  refine ⟨by decide, by decide, by decide, by decide⟩

/-- Witness for C1 at the parsing key `"5"` and the non-parsing key `"a"`. -/
theorem claim1_witness :
    ZendHashTable.get ⟨[(.hInt 5, .long 1)], 6⟩ (.Str "5")
        = zend_hash_index_find ⟨[(.hInt 5, .long 1)], 6⟩ 5
    ∧ ZendHashTable.get ZendHashTable.new (.Str "a")
        = (if hasNulByte "a" then none
           else zend_hash_str_find ZendHashTable.new "a") :=
  ⟨((claim1_key_coercion ⟨[(.hInt 5, .long 1)], 6⟩ "5" .null).2.1 5
      (by decide)).1,
   ((claim1_key_coercion ZendHashTable.new "a" .null).2.2.1 (by decide)).1⟩

/-- Counterexample to C8 as stated: on a table whose first entry has a
string key and whose last entry has the integer key `5`, the first forward
step returns the key `String "a"` read at the forward cursor, although the
key at the backward cursor position is the integer `5`; a forward step that
actually read the key value at the backward cursor (`next_zval_claim`)
disagrees with the implemented one. -/
theorem claim8_counterexample :
    (Iter.next (Iter.new mixedHT)).map (fun q => q.1.1)
        = some (ArrayKey.String "a")
    ∧ zend_hash_get_current_key_zval mixedHT (Iter.new mixedHT).end_pos
        = .long 5
    ∧ Iter.next_zval (Iter.new mixedHT) ≠ Iter.next_zval_claim (Iter.new mixedHT) := by
  refine ⟨by decide, by decide, by decide⟩

/-- C8 (amended). It is the BACKWARD iterator that mixes the cursors: a
`next_back` step reads the key type at the forward cursor but takes its
key-value pair from the entry at the backward cursor, so the pair it yields
is the entry at `end_pos`, and replacing the forward cursor by any in-range
position changes nothing but the stored cursor itself. -/
theorem claim8_backward_reads_forward_cursor (ht : HashTable)
    (hlen : 0 < ht.entries.length) (p' : Nat) (hp : p' < ht.entries.length) :
    (Iter.next_back (Iter.new ht)).map (fun q => q.1)
        = (ht.entries[ht.entries.length - 1]?).map entryToPair
    ∧ Iter.next_back { Iter.new ht with pos := p' }
        = (Iter.next_back (Iter.new ht)).map
            (fun q => (q.1, { q.2 with pos := p' })) := by
  obtain ⟨es, nf⟩ := ht
  simp only at hlen hp
  have hlast : es.length - 1 < es.length := by omega
  have h0 : es[0]? = some es[0] := List.getElem?_eq_getElem hlen
  have hpe : es[p']? = some es[p'] := List.getElem?_eq_getElem hp
  have hl : es[es.length - 1]? = some es[es.length - 1] :=
    List.getElem?_eq_getElem hlast
  have hg : ¬ ((es.length : Int) ≤ (0 : Int)) := by
    exact_mod_cast Nat.not_le.mpr hlen
  have hnew : Iter.new ⟨es, nf⟩
      = ⟨⟨es, nf⟩, 0, (es.length : Int), 0, es.length - 1⟩ := by
    simp [Iter.new, HashTable.len, hlen]
  have hb0 := Iter.next_back_eval es nf 0 (es.length : Int) 0
    (es.length - 1) es[0] es[es.length - 1] hg h0 hl
  have hbp := Iter.next_back_eval es nf 0 (es.length : Int) p'
    (es.length - 1) es[p'] es[es.length - 1] hg hpe hl
  constructor
  · rw [hnew, hb0, hl]
    rfl
  · have hstate : ({ Iter.new ⟨es, nf⟩ with pos := p' } : Iter)
        = ⟨⟨es, nf⟩, 0, (es.length : Int), p', es.length - 1⟩ := by
      rw [hnew]
    rw [hstate, hnew, hb0, hbp]
    rfl

/-- Witness for the amended C8 on the concrete mixed table. -/
theorem claim8_witness :
    (0 : Nat) < mixedHT.entries.length
    ∧ (Iter.next_back (Iter.new mixedHT)).map (fun q => q.1)
        = (mixedHT.entries[mixedHT.entries.length - 1]?).map entryToPair :=
  ⟨by decide,
   (claim8_backward_reads_forward_cursor mixedHT (by decide) 1 (by decide)).1⟩

end Php
